import Mathlib

/-!
Verification of the offline image-cache subsystem of the Memory Lane app.

The development shallowly embeds three pieces of the code base:

* `src/lib/indexed-db.ts` — the Blob Store: an IndexedDB object store named
  `images` with `keyPath: 'url'`, wrapped by `storeImage`, `getImage` and
  plain `store.delete` calls.  The store is modelled as a list of records in
  insertion order; `put` with an in-line key replaces the record with the
  same key or appends a fresh one, which is exactly IndexedDB's semantics
  for a keyPath store.

* `src/components/image-cacher.tsx` — the Cache Synchronizer
  (`ImageCacher.syncCache`): snapshot the stored urls, diff them against the
  manifest urls, fetch-and-put each missing url (each attempt wrapped in its
  own try/catch, so one failure skips only its key), then delete each stale
  url.  Network fetch (together with the subsequent put, which the same
  try/catch covers) is modelled by an oracle `String → Option Blob`; `none`
  means the attempt failed and left the store unchanged for that key.

* `useOfflineImage` in `src/components/memory-gallery.tsx` — the
  Resolved-Source Hook: a React hook with state `source` initialised to the
  input url, and an effect keyed on `[imageUrl]` that starts a `getImage`
  lookup guarded by an `isMounted` flag, and whose cleanup revokes the
  captured `source` when it starts with `"blob:"`.  The hook is modelled as
  an explicit state machine: renders do not matter, only effect runs,
  cleanup runs, and asynchronous lookup completions, exactly mirroring the
  React effect protocol (cleanup of the previous effect runs before the
  next effect whenever the dependency changes; the cleanup closure sees the
  values captured when its effect ran).
-/

namespace MemoryLane

/-- Opaque binary payload (the encoded image bytes), modelled as bytes. -/
abbrev Blob := List Nat

/-- One record of the `images` object store: `store.put({ url, blob })`
with `keyPath: 'url'` (src/lib/indexed-db.ts). -/
structure CachedBlob where
  url : String
  blob : Blob
deriving DecidableEq

/-- Contents of the `images` object store, in insertion order. -/
abbrev Store := List CachedBlob

/-- `storeImage` (src/lib/indexed-db.ts lines 37-50): an IndexedDB `put`
on a keyPath store replaces the record whose key equals `url`, or inserts
a new record when the key is absent. -/
def storeImage : Store → String → Blob → Store
  | [], url, b => [{ url := url, blob := b }]
  | e :: t, url, b =>
    if e.url == url then { url := url, blob := b } :: t
    else e :: storeImage t url b

/-- `getImage` (src/lib/indexed-db.ts lines 53-69): `store.get(url)`,
yielding the stored blob or `none` when the key is absent. -/
def getImage (s : Store) (url : String) : Option Blob :=
  (s.find? (fun e => e.url == url)).map (fun e => e.blob)

/-- `deleteStore.delete(url)` (src/components/image-cacher.tsx line 51):
removes the record for `url`; a no-op when the key is absent. -/
def deleteImage (s : Store) (url : String) : Store :=
  s.filter (fun e => e.url != url)

/-- The url column of the store: what `cachedItems.map(item => item.url)`
reads off the `getAll` snapshot (src/components/image-cacher.tsx line 24). -/
def cachedUrls (s : Store) : List String :=
  s.map (fun e => e.url)

/-- Number of records stored under key `k`. -/
def countKey (s : Store) (k : String) : Nat :=
  (s.filter (fun e => e.url == k)).length

theorem getImage_storeImage_self (s : Store) (k : String) (b : Blob) :
    getImage (storeImage s k b) k = some b := by
  induction s with
  | nil => simp [storeImage, getImage]
  | cons e t ih =>
    cases he : e.url == k with
    | true => simp [storeImage, getImage, he]
    | false =>
      simp only [storeImage, he, Bool.false_eq_true, if_false, getImage, List.find?_cons, he]
      exact ih

theorem getImage_storeImage_ne (s : Store) (k u : String) (b : Blob)
    (h : u ≠ k) : getImage (storeImage s k b) u = getImage s u := by
  have hku : (k == u) = false := by
    simp only [beq_eq_false_iff_ne, ne_eq]
    exact fun hh => h hh.symm
  induction s with
  | nil => simp [storeImage, getImage, hku]
  | cons e t ih =>
    cases he : e.url == k with
    | true =>
      have heu : (e.url == u) = false := by
        simp only [beq_iff_eq] at he
        simp only [beq_eq_false_iff_ne, ne_eq, he]
        exact fun hh => h hh.symm
      simp only [storeImage, he, if_true, getImage, List.find?_cons, hku, heu]
    | false =>
      simp only [storeImage, he, Bool.false_eq_true, if_false, getImage, List.find?_cons]
      cases heu : e.url == u with
      | true => rfl
      | false => exact ih

theorem getImage_deleteImage_ne (s : Store) (k u : String)
    (h : u ≠ k) : getImage (deleteImage s k) u = getImage s u := by
  induction s with
  | nil => rfl
  | cons e t ih =>
    cases he : e.url == k with
    | true =>
      have heu : (e.url == u) = false := by
        simp only [beq_iff_eq] at he
        simp only [beq_eq_false_iff_ne, ne_eq, he]
        exact fun hh => h hh.symm
      simp only [deleteImage, List.filter_cons, he, bne, Bool.not_true, Bool.false_eq_true,
        if_false, getImage, List.find?_cons, heu] at *
      exact ih
    | false =>
      simp only [deleteImage, List.filter_cons, he, bne, Bool.not_false, if_true,
        getImage, List.find?_cons] at *
      cases heu : e.url == u with
      | true => rfl
      | false => exact ih

theorem mem_cachedUrls_storeImage (s : Store) (k u : String) (b : Blob) :
    u ∈ cachedUrls (storeImage s k b) ↔ u = k ∨ u ∈ cachedUrls s := by
  induction s with
  | nil => simp [storeImage, cachedUrls]
  | cons e t ih =>
    cases he : e.url == k with
    | true =>
      simp only [beq_iff_eq] at he
      simp [storeImage, he, cachedUrls]
    | false =>
      simp only [storeImage, he, Bool.false_eq_true, if_false, cachedUrls,
        List.map_cons, List.mem_cons] at *
      rw [ih]
      tauto

theorem mem_cachedUrls_deleteImage (s : Store) (k u : String) :
    u ∈ cachedUrls (deleteImage s k) ↔ u ∈ cachedUrls s ∧ u ≠ k := by
  induction s with
  | nil => simp [deleteImage, cachedUrls]
  | cons e t ih =>
    cases he : e.url == k with
    | true =>
      have he' : e.url = k := by simpa only [beq_iff_eq] using he
      simp only [deleteImage, List.filter_cons, he, bne, Bool.not_true, Bool.false_eq_true,
        if_false, cachedUrls, List.map_cons, List.mem_cons] at *
      rw [ih]
      constructor
      · tauto
      · rintro ⟨h1 | h1, h2⟩
        · exact absurd (h1.trans he') h2
        · exact ⟨h1, h2⟩
    | false =>
      have he' : e.url ≠ k := by simpa only [beq_eq_false_iff_ne, ne_eq] using he
      simp only [deleteImage, List.filter_cons, he, bne, Bool.not_false, if_true,
        cachedUrls, List.map_cons, List.mem_cons] at *
      rw [ih]
      constructor
      · rintro (h1 | ⟨h1, h2⟩)
        · exact ⟨Or.inl h1, fun hc => he' (h1 ▸ hc)⟩
        · exact ⟨Or.inr h1, h2⟩
      · rintro ⟨h1 | h1, h2⟩
        · exact Or.inl h1
        · exact Or.inr ⟨h1, h2⟩

theorem countKey_eq_zero_of_not_mem (s : Store) (k : String)
    (h : k ∉ cachedUrls s) : countKey s k = 0 := by
  induction s with
  | nil => rfl
  | cons e t ih =>
    simp only [cachedUrls, List.map_cons, List.mem_cons] at h
    push_neg at h
    have he : (e.url == k) = false := by
      simp only [beq_eq_false_iff_ne, ne_eq]
      exact fun hh => h.1 hh.symm
    simp only [countKey, List.filter_cons, he, Bool.false_eq_true, if_false]
    exact ih h.2

theorem countKey_storeImage_self (s : Store) (k : String) (b : Blob)
    (h : (cachedUrls s).Nodup) : countKey (storeImage s k b) k = 1 := by
  induction s with
  | nil => simp [storeImage, countKey]
  | cons e t ih =>
    simp only [cachedUrls, List.map_cons, List.nodup_cons] at h
    cases he : e.url == k with
    | true =>
      have he' : e.url = k := by simpa only [beq_iff_eq] using he
      have h0 : countKey t k = 0 := countKey_eq_zero_of_not_mem t k (he' ▸ h.1)
      simp only [countKey, List.filter_cons] at h0 ⊢
      simp only [storeImage, he, if_true]
      rw [List.filter_cons, if_pos (by simp)]
      simp [h0]
    | false =>
      simp only [storeImage, he, Bool.false_eq_true, if_false, countKey, List.filter_cons,
        he] at *
      exact ih h.2

theorem nodup_cachedUrls_storeImage (s : Store) (k : String) (b : Blob)
    (h : (cachedUrls s).Nodup) : (cachedUrls (storeImage s k b)).Nodup := by
  induction s with
  | nil => simp [storeImage, cachedUrls]
  | cons e t ih =>
    simp only [cachedUrls, List.map_cons, List.nodup_cons] at h
    cases he : e.url == k with
    | true =>
      have he' : e.url = k := by simpa only [beq_iff_eq] using he
      simp only [storeImage, he, if_true, cachedUrls, List.map_cons, List.nodup_cons]
      exact ⟨he' ▸ h.1, h.2⟩
    | false =>
      have he' : e.url ≠ k := by simpa only [beq_eq_false_iff_ne, ne_eq] using he
      simp only [storeImage, he, Bool.false_eq_true, if_false, cachedUrls,
        List.map_cons, List.nodup_cons]
      refine ⟨fun hc => ?_, ih h.2⟩
      rcases (mem_cachedUrls_storeImage t k e.url b).mp hc with h1 | h1
      · exact he' h1
      · exact h.1 h1

theorem nodup_cachedUrls_deleteImage (s : Store) (k : String)
    (h : (cachedUrls s).Nodup) : (cachedUrls (deleteImage s k)).Nodup := by
  have hs : List.Sublist (deleteImage s k) s := List.filter_sublist s
  have hm : List.Sublist (List.map (fun e => e.url) (deleteImage s k))
      (List.map (fun e => e.url) s) :=
    List.Sublist.map (fun e => e.url) hs
  simp only [cachedUrls] at h ⊢
  exact List.Nodup.sublist hm h

/-- One Blob Store operation, as exposed by src/lib/indexed-db.ts and the
synchronizer's delete transaction: `put` inserts or overwrites, `get` reads
and leaves the store unchanged, `del` removes the key when present. -/
inductive StoreOp where
  | put (url : String) (b : Blob)
  | get (url : String)
  | del (url : String)
deriving DecidableEq

/-- Effect of one operation on the store contents. -/
def applyOp (s : Store) : StoreOp → Store
  | .put url b => storeImage s url b
  | .get _ => s
  | .del url => deleteImage s url

/-- Effect of a sequence of operations, run left to right. -/
def applyOps (s : Store) (ops : List StoreOp) : Store :=
  ops.foldl applyOp s

theorem nodup_cachedUrls_applyOp (s : Store) (op : StoreOp)
    (h : (cachedUrls s).Nodup) : (cachedUrls (applyOp s op)).Nodup := by
  cases op with
  | put url b => exact nodup_cachedUrls_storeImage s url b h
  | get url => exact h
  | del url => exact nodup_cachedUrls_deleteImage s url h

/-- Manifest record (src/lib/placeholder-images.ts): the synchronizer and
the gallery only ever read `imageUrl`; the remaining fields ride along. -/
structure ImagePlaceholder where
  id : String
  description : String
  imageUrl : String
  imageHint : String
  width : Nat
  height : Nat
  portrait : Bool
deriving DecidableEq

/-- `requiredUrls = new Set(images.map(image => image.imageUrl))`
(src/components/image-cacher.tsx line 25), kept as the underlying list. -/
def requiredUrls (images : List ImagePlaceholder) : List String :=
  images.map (fun im => im.imageUrl)

/-- `imagesToCache = images.filter(image => !cachedUrls.has(image.imageUrl))`
(src/components/image-cacher.tsx line 28). -/
def imagesToCache (images : List ImagePlaceholder) (cached : List String) :
    List ImagePlaceholder :=
  images.filter (fun im => !(cached.contains im.imageUrl))

/-- `urlsToRemove = [...cachedUrls].filter(url => !requiredUrls.has(url))`
(src/components/image-cacher.tsx line 45). -/
def urlsToRemove (cached required : List String) : List String :=
  cached.filter (fun u => !(required.contains u))

/-- The `for (const image of imagesToCache)` loop
(src/components/image-cacher.tsx lines 31-40).  The fetch-then-put body sits
inside its own try/catch, so a failed attempt (`fetchFn _ = none`, covering
a network error, a non-ok response, a blob-read failure, or a rejected
`storeImage`) leaves the store untouched for that key and the loop moves on.
The second component records every url an attempt was made for, in order. -/
def cacheLoop (fetchFn : String → Option Blob) :
    Store × List String → List ImagePlaceholder → Store × List String
  | acc, [] => acc
  | (s, att), im :: rest =>
    match fetchFn im.imageUrl with
    | some b => cacheLoop fetchFn (storeImage s im.imageUrl b, att ++ [im.imageUrl]) rest
    | none => cacheLoop fetchFn (s, att ++ [im.imageUrl]) rest

/-- The `urlsToRemove.forEach(url => deleteStore.delete(url))` loop
(src/components/image-cacher.tsx lines 50-52). -/
def deleteLoop : Store → List String → Store
  | s, [] => s
  | s, u :: rest => deleteLoop (deleteImage s u) rest

/-- Observable outcome of one synchronizer pass: the final store contents,
the urls a fetch-and-put was attempted for, and the urls deleted. -/
structure SyncResult where
  store : Store
  attempted : List String
  deleted : List String
deriving DecidableEq

/-- The `getAllRequest.onsuccess` body of `ImageCacher.syncCache`
(src/components/image-cacher.tsx lines 22-59): diff the snapshot against
the manifest, fetch-and-put every missing url, then delete every stale
url. -/
def syncCache (fetchFn : String → Option Blob) (images : List ImagePlaceholder)
    (s : Store) : SyncResult :=
  let cached := cachedUrls s
  let required := requiredUrls images
  let toCache := imagesToCache images cached
  let afterPuts := cacheLoop fetchFn (s, []) toCache
  let toRemove := urlsToRemove cached required
  { store := deleteLoop afterPuts.1 toRemove
    attempted := afterPuts.2
    deleted := toRemove }

/-- A whole `syncCache` invocation after `openDB` succeeded
(src/components/image-cacher.tsx lines 17-67): when the `getAll` snapshot
read succeeds its `onsuccess` handler runs the reconciliation; when it
fails the `onerror` handler only logs (lines 61-63), so nothing else runs
and no error escapes the pass. -/
def syncCachePass (getAllOk : Bool) (fetchFn : String → Option Blob)
    (images : List ImagePlaceholder) (s : Store) : SyncResult :=
  if getAllOk then syncCache fetchFn images s
  else { store := s, attempted := [], deleted := [] }

theorem cacheLoop_attempted (fetchFn : String → Option Blob)
    (imgs : List ImagePlaceholder) (s : Store) (a : List String) :
    (cacheLoop fetchFn (s, a) imgs).2 = a ++ imgs.map (fun im => im.imageUrl) := by
  induction imgs generalizing s a with
  | nil => simp [cacheLoop]
  | cons im rest ih =>
    cases hf : fetchFn im.imageUrl with
    | some b => simp [cacheLoop, hf, ih]
    | none => simp [cacheLoop, hf, ih]

theorem mem_cacheLoop_store (fetchFn : String → Option Blob)
    (imgs : List ImagePlaceholder) (s : Store) (a : List String) (u : String) :
    u ∈ cachedUrls (cacheLoop fetchFn (s, a) imgs).1 ↔
      (∃ im ∈ imgs, im.imageUrl = u ∧ (fetchFn u).isSome) ∨ u ∈ cachedUrls s := by
  induction imgs generalizing s a with
  | nil => simp [cacheLoop]
  | cons im rest ih =>
    cases hf : fetchFn im.imageUrl with
    | some b =>
      simp only [cacheLoop, hf]
      rw [ih, mem_cachedUrls_storeImage]
      constructor
      · rintro (⟨im', him', hurl, hsome⟩ | h1 | h1)
        · exact Or.inl ⟨im', List.mem_cons_of_mem _ him', hurl, hsome⟩
        · refine Or.inl ⟨im, List.mem_cons_self _ _, h1.symm, ?_⟩
          rw [h1, hf]
          rfl
        · exact Or.inr h1
      · rintro (⟨im', him', hurl, hsome⟩ | h1)
        · rcases List.mem_cons.mp him' with rfl | him''
          · exact Or.inr (Or.inl hurl.symm)
          · exact Or.inl ⟨im', him'', hurl, hsome⟩
        · exact Or.inr (Or.inr h1)
    | none =>
      simp only [cacheLoop, hf]
      rw [ih]
      constructor
      · rintro (⟨im', him', hurl, hsome⟩ | h1)
        · exact Or.inl ⟨im', List.mem_cons_of_mem _ him', hurl, hsome⟩
        · exact Or.inr h1
      · rintro (⟨im', him', hurl, hsome⟩ | h1)
        · rcases List.mem_cons.mp him' with rfl | him''
          · rw [← hurl, hf] at hsome
            exact absurd hsome (by simp)
          · exact Or.inl ⟨im', him'', hurl, hsome⟩
        · exact Or.inr h1

theorem getImage_cacheLoop_not_mem (fetchFn : String → Option Blob)
    (imgs : List ImagePlaceholder) (s : Store) (a : List String) (u : String)
    (h : ∀ im ∈ imgs, im.imageUrl ≠ u) :
    getImage (cacheLoop fetchFn (s, a) imgs).1 u = getImage s u := by
  induction imgs generalizing s a with
  | nil => rfl
  | cons im rest ih =>
    cases hf : fetchFn im.imageUrl with
    | some b =>
      simp only [cacheLoop, hf]
      rw [ih _ _ (fun im' h' => h im' (List.mem_cons_of_mem _ h')),
        getImage_storeImage_ne _ _ _ _
          (fun hh => h im (List.mem_cons_self _ _) hh.symm)]
    | none =>
      simp only [cacheLoop, hf]
      exact ih _ _ (fun im' h' => h im' (List.mem_cons_of_mem _ h'))

theorem mem_deleteLoop (s : Store) (l : List String) (u : String) :
    u ∈ cachedUrls (deleteLoop s l) ↔ u ∈ cachedUrls s ∧ u ∉ l := by
  induction l generalizing s with
  | nil => simp [deleteLoop]
  | cons k rest ih =>
    simp only [deleteLoop]
    rw [ih, mem_cachedUrls_deleteImage]
    simp only [List.mem_cons]
    tauto

theorem getImage_deleteLoop_not_mem (s : Store) (l : List String) (u : String)
    (h : u ∉ l) : getImage (deleteLoop s l) u = getImage s u := by
  induction l generalizing s with
  | nil => rfl
  | cons k rest ih =>
    simp only [deleteLoop]
    rw [ih _ (fun hh => h (List.mem_cons_of_mem _ hh)),
      getImage_deleteImage_ne _ _ _ (fun hh : u = k => h (hh ▸ List.mem_cons_self _ _))]

theorem mem_requiredUrls (images : List ImagePlaceholder) (u : String) :
    u ∈ requiredUrls images ↔ ∃ im ∈ images, im.imageUrl = u := by
  simp [requiredUrls, List.mem_map]

theorem mem_imagesToCache (images : List ImagePlaceholder) (cached : List String)
    (im : ImagePlaceholder) :
    im ∈ imagesToCache images cached ↔ im ∈ images ∧ im.imageUrl ∉ cached := by
  simp [imagesToCache, List.mem_filter]

theorem mem_urlsToRemove (cached required : List String) (u : String) :
    u ∈ urlsToRemove cached required ↔ u ∈ cached ∧ u ∉ required := by
  simp [urlsToRemove, List.mem_filter]

theorem exists_toCache_iff (images : List ImagePlaceholder) (cached : List String)
    (u : String) :
    (∃ im ∈ imagesToCache images cached, im.imageUrl = u) ↔
      ((∃ im ∈ images, im.imageUrl = u) ∧ u ∉ cached) := by
  constructor
  · rintro ⟨im, him, rfl⟩
    rw [mem_imagesToCache] at him
    exact ⟨⟨im, him.1, rfl⟩, him.2⟩
  · rintro ⟨⟨im, him, rfl⟩, hn⟩
    exact ⟨im, (mem_imagesToCache _ _ _).mpr ⟨him, hn⟩, rfl⟩

/-- C1: for every desired set (the manifest urls) and every prior store
contents, one synchronizer pass in which open, the snapshot, every fetch,
every put and every delete succeed leaves the store's key set exactly equal
to the desired set: every missing url is fetched and put, every stale url
is deleted, and urls in both sets keep their stored payload untouched. -/
theorem sync_pass_convergence (fetchFn : String → Option Blob)
    (images : List ImagePlaceholder) (s : Store)
    (hfetch : ∀ u : String, (fetchFn u).isSome) :
    (∀ u, u ∈ cachedUrls (syncCache fetchFn images s).store ↔ u ∈ requiredUrls images) ∧
    (∀ u, u ∈ cachedUrls s → u ∈ requiredUrls images →
      getImage (syncCache fetchFn images s).store u = getImage s u) := by
  constructor
  · intro u
    simp only [syncCache]
    rw [mem_deleteLoop, mem_cacheLoop_store, mem_urlsToRemove, mem_requiredUrls]
    have hA : (∃ im ∈ imagesToCache images (cachedUrls s), im.imageUrl = u ∧
        (fetchFn u).isSome) ↔
        ((∃ im ∈ images, im.imageUrl = u) ∧ u ∉ cachedUrls s) := by
      rw [← exists_toCache_iff]
      constructor
      · rintro ⟨im, him, hurl, _⟩
        exact ⟨im, him, hurl⟩
      · rintro ⟨im, him, hurl⟩
        exact ⟨im, him, hurl, hfetch u⟩
    rw [hA]
    constructor
    · rintro ⟨h1 | h1, h2⟩
      · exact h1.1
      · by_contra hnd
        exact h2 ⟨h1, hnd⟩
    · intro hd
      refine ⟨?_, fun hcon => hcon.2 hd⟩
      by_cases hc : u ∈ cachedUrls s
      · exact Or.inr hc
      · exact Or.inl ⟨hd, hc⟩
  · intro u hc hd
    simp only [syncCache]
    rw [getImage_deleteLoop_not_mem, getImage_cacheLoop_not_mem]
    · intro im him
      rw [mem_imagesToCache] at him
      exact fun hh => him.2 (hh ▸ hc)
    · rw [mem_urlsToRemove]
      exact fun hcontra => hcontra.2 hd

/-- Witness for C1 at a concrete input: desired set containing url `a`,
prior store containing only url `b`, every fetch succeeding. -/
theorem sync_pass_convergence_witness :
    "a" ∈ cachedUrls (syncCache (fun _ => some [0])
        [{ id := "1", description := "d", imageUrl := "a", imageHint := "h",
           width := 1, height := 1, portrait := true }]
        [{ url := "b", blob := [1] }]).store ↔
      "a" ∈ requiredUrls
        [{ id := "1", description := "d", imageUrl := "a", imageHint := "h",
           width := 1, height := 1, portrait := true }] :=
  (sync_pass_convergence (fun _ => some [0])
    [{ id := "1", description := "d", imageUrl := "a", imageHint := "h",
       width := 1, height := 1, portrait := true }]
    [{ url := "b", blob := [1] }] (fun _ => rfl)).1 "a"

/-- C2: when the fetch-and-put of one to-fetch key fails, the pass still
attempts every to-fetch key (the attempted list is the whole to-fetch
list), still lands every other to-fetch key in the store, and still
deletes every to-evict key; the failure never aborts the batch and nothing
propagates out of the pass. -/
theorem sync_partial_failure (fetchFn : String → Option Blob)
    (images : List ImagePlaceholder) (s : Store) (fKey : String)
    (hfail : fetchFn fKey = none)
    (hok : ∀ u : String, u ≠ fKey → (fetchFn u).isSome) :
    ((syncCache fetchFn images s).attempted
        = (imagesToCache images (cachedUrls s)).map (fun im => im.imageUrl)) ∧
    (∀ u, u ∈ (imagesToCache images (cachedUrls s)).map (fun im => im.imageUrl) →
        u ≠ fKey → u ∈ cachedUrls (syncCache fetchFn images s).store) ∧
    ((syncCache fetchFn images s).deleted
        = urlsToRemove (cachedUrls s) (requiredUrls images)) ∧
    (∀ u, u ∈ urlsToRemove (cachedUrls s) (requiredUrls images) →
        u ∉ cachedUrls (syncCache fetchFn images s).store) := by
  refine ⟨?_, ?_, rfl, ?_⟩
  · simp only [syncCache]
    rw [cacheLoop_attempted]
    simp
  · intro u hu hne
    rcases List.mem_map.mp hu with ⟨im, him, hurl⟩
    have him' := (mem_imagesToCache _ _ _).mp him
    simp only [syncCache]
    rw [mem_deleteLoop, mem_cacheLoop_store]
    refine ⟨Or.inl ⟨im, him, hurl, hok u hne⟩, ?_⟩
    rw [mem_urlsToRemove]
    exact fun hcontra => him'.2 (hurl ▸ hcontra.1)
  · intro u hu
    simp only [syncCache]
    rw [mem_deleteLoop]
    exact fun hcontra => hcontra.2 hu

/-- Witness for C2 at a concrete input: to-fetch keys `good` and `bad`
with the fetch of `bad` failing, and `old` the single to-evict key. -/
theorem sync_partial_failure_witness :
    "good" ∈ cachedUrls (syncCache
        (fun u => if u = "bad" then none else some [0])
        [{ id := "1", description := "d", imageUrl := "good", imageHint := "h",
           width := 1, height := 1, portrait := true },
         { id := "2", description := "d", imageUrl := "bad", imageHint := "h",
           width := 1, height := 1, portrait := true }]
        [{ url := "old", blob := [1] }]).store ∧
    "old" ∉ cachedUrls (syncCache
        (fun u => if u = "bad" then none else some [0])
        [{ id := "1", description := "d", imageUrl := "good", imageHint := "h",
           width := 1, height := 1, portrait := true },
         { id := "2", description := "d", imageUrl := "bad", imageHint := "h",
           width := 1, height := 1, portrait := true }]
        [{ url := "old", blob := [1] }]).store :=
  ⟨(sync_partial_failure (fun u => if u = "bad" then none else some [0])
      [{ id := "1", description := "d", imageUrl := "good", imageHint := "h",
         width := 1, height := 1, portrait := true },
       { id := "2", description := "d", imageUrl := "bad", imageHint := "h",
         width := 1, height := 1, portrait := true }]
      [{ url := "old", blob := [1] }] "bad" (by decide)
      (fun u hu => by simp [if_neg hu])).2.1 "good" (by decide) (by decide),
   (sync_partial_failure (fun u => if u = "bad" then none else some [0])
      [{ id := "1", description := "d", imageUrl := "good", imageHint := "h",
         width := 1, height := 1, portrait := true },
       { id := "2", description := "d", imageUrl := "bad", imageHint := "h",
         width := 1, height := 1, portrait := true }]
      [{ url := "old", blob := [1] }] "bad" (by decide)
      (fun u hu => by simp [if_neg hu])).2.2.2 "old" (by decide)⟩

/-- C4: putting `b1` then `b2` under the same key `k` and reading `k`
returns `b2`, and the store then holds exactly one record for `k` — the
second put overwrites rather than duplicates. -/
theorem put_put_get (s : Store) (k : String) (b1 b2 : Blob)
    (h : (cachedUrls s).Nodup) :
    getImage (storeImage (storeImage s k b1) k b2) k = some b2 ∧
    countKey (storeImage (storeImage s k b1) k b2) k = 1 :=
  ⟨getImage_storeImage_self _ _ _,
   countKey_storeImage_self _ _ _ (nodup_cachedUrls_storeImage s k b1 h)⟩

/-- Witness for C4 at a concrete input: empty prior store, key `k`. -/
theorem put_put_get_witness :
    getImage (storeImage (storeImage [] "k" [1]) "k" [2]) "k" = some [2] ∧
    countKey (storeImage (storeImage [] "k" [1]) "k" [2]) "k" = 1 :=
  put_put_get [] "k" [1] [2] (by decide)

/-- C5: starting from the empty store, no sequence of put, get and delete
operations ever produces two records with the same key. -/
theorem store_no_duplicate_keys (ops : List StoreOp) :
    (cachedUrls (applyOps [] ops)).Nodup := by
  have main : ∀ (l : List StoreOp) (s : Store), (cachedUrls s).Nodup →
      (cachedUrls (applyOps s l)).Nodup := by
    intro l
    induction l with
    | nil => exact fun s hs => hs
    | cons op rest ih =>
      intro s hs
      simp only [applyOps, List.foldl_cons]
      exact ih (applyOp s op) (nodup_cachedUrls_applyOp s op hs)
  exact main ops [] (by simp [cachedUrls])

/-- C10: when the `getAll` snapshot read fails after the store opened, the
whole pass is skipped — the store is left unchanged, no fetch-and-put is
attempted and no deletion happens; the `onerror` handler only logs, so
nothing escapes the pass. -/
theorem sync_getAll_failure_skips_pass (fetchFn : String → Option Blob)
    (images : List ImagePlaceholder) (s : Store) :
    (syncCachePass false fetchFn images s).store = s ∧
    (syncCachePass false fetchFn images s).attempted = [] ∧
    (syncCachePass false fetchFn images s).deleted = [] :=
  ⟨rfl, rfl, rfl⟩

/-- Mirrors the JS check `source.startsWith('blob:')` in the effect cleanup
of `useOfflineImage` (src/components/memory-gallery.tsx line 48). -/
def isBlobURL (s : String) : Bool :=
  List.isPrefixOf "blob:".data s.data

/-- Mirrors `URL.createObjectURL`: each call mints a fresh `blob:` url;
freshness is modelled by a counter carried in the hook state. -/
def objectURL (n : Nat) : String :=
  "blob:" ++ toString n

/-- State of one `useOfflineImage` hook instance
(src/components/memory-gallery.tsx lines 25-55).

* `source`       — the React state variable `source`
  (`useState<string | null>(imageUrl)`); `none` is JS `null`.
* `input`        — the current `imageUrl` prop (the effect dependency).
* `hasCleanup`   — whether the active effect run registered a cleanup
  (the effect body returns before registering one when `imageUrl` is null).
* `capturedSource` — the value of `source` the active effect's closure
  captured when that effect ran: the cleanup revokes THIS value, and the
  effect does not re-run when `setSource` fires (deps are `[imageUrl]`,
  `source` is intentionally omitted).
* `activeToken`  — identity of the active effect run; a pending lookup
  whose token differs has had its `isMounted` flag set to false.
* `pending`      — in-flight `getImage` lookups as (token, url) pairs.
* `nextToken`, `nextBlobId` — fresh-name counters.
* `live`         — object urls created (`URL.createObjectURL`) and not yet
  revoked (`URL.revokeObjectURL`).
* `revoked`      — every revocation performed, in order. -/
structure HookState where
  source : Option String
  input : Option String
  hasCleanup : Bool
  capturedSource : Option String
  activeToken : Nat
  pending : List (Nat × String)
  nextToken : Nat
  nextBlobId : Nat
  live : List String
  revoked : List String
deriving DecidableEq

/-- The effect cleanup (src/components/memory-gallery.tsx lines 45-51):
set `isMounted = false` (here: drop the active token), then revoke the
captured `source` when it is non-null and starts with `blob:`. -/
def runCleanup (s : HookState) : HookState :=
  if s.hasCleanup then
    let s1 := { s with hasCleanup := false }
    match s1.capturedSource with
    | some src =>
      if isBlobURL src then
        { s1 with live := s1.live.erase src, revoked := s1.revoked ++ [src] }
      else s1
    | none => s1
  else s

/-- The effect body (src/components/memory-gallery.tsx lines 28-43): when
`imageUrl` is null, return before registering a cleanup or a lookup;
otherwise capture the current `source` in the cleanup closure, set
`isMounted = true` for a fresh effect identity, and start the `getImage`
lookup for the current url. -/
def runEffect (s : HookState) : HookState :=
  match s.input with
  | none => s
  | some u =>
    { s with hasCleanup := true
             capturedSource := s.source
             activeToken := s.nextToken
             pending := s.pending ++ [(s.nextToken, u)]
             nextToken := s.nextToken + 1 }

/-- Mount of the hook: `useState<string | null>(imageUrl)` initialises
`source` to the input, then the effect runs once. -/
def initHook (u : Option String) : HookState :=
  runEffect { source := u, input := u, hasCleanup := false, capturedSource := none,
              activeToken := 0, pending := [], nextToken := 0, nextBlobId := 0,
              live := [], revoked := [] }

/-- The `imageUrl` prop changes.  React re-runs the effect only when the
dependency changed; it first runs the previous cleanup, then the new
effect.  `source` itself is untouched by the change (the `useState`
initialiser only applies at mount). -/
def changeInput (s : HookState) (u : Option String) : HookState :=
  if u = s.input then s
  else runEffect (runCleanup { s with input := u })

/-- Unmount: React runs the active cleanup. -/
def teardown (s : HookState) : HookState :=
  runCleanup s

/-- An in-flight `getImage` promise for token `t` resolves with `result`
(src/components/memory-gallery.tsx lines 33-40).  Only when the effect that
started it is still mounted does the hook act: a cached blob becomes a
fresh object url recorded as live, absence falls back to the lookup's own
url.  A stale completion (token no longer active) does nothing. -/
def resolveFetch (s : HookState) (t : Nat) (result : Option Blob) : HookState :=
  match s.pending.find? (fun p => p.1 == t) with
  | none => s
  | some pr =>
    let s1 := { s with pending := s.pending.filter (fun p => p.1 != t) }
    if s1.hasCleanup ∧ s1.activeToken = t then
      match result with
      | some _ =>
        { s1 with source := some (objectURL s1.nextBlobId)
                  live := s1.live ++ [objectURL s1.nextBlobId]
                  nextBlobId := s1.nextBlobId + 1 }
      | none => { s1 with source := some pr.2 }
    else s1

/-- An in-flight `getImage` promise for token `t` rejects.  The code has no
catch around `await getImage(imageUrl)`, so no state update of any kind
happens (the rejection is unhandled). -/
def rejectFetch (s : HookState) (t : Nat) : HookState :=
  { s with pending := s.pending.filter (fun p => p.1 != t) }

theorem runCleanup_fields (s : HookState) :
    (runCleanup s).source = s.source ∧
    (runCleanup s).input = s.input ∧
    (runCleanup s).capturedSource = s.capturedSource ∧
    (runCleanup s).pending = s.pending ∧
    (runCleanup s).nextToken = s.nextToken ∧
    (runCleanup s).nextBlobId = s.nextBlobId ∧
    (runCleanup s).activeToken = s.activeToken := by
  obtain ⟨so, inp, hcl, cap, act, pend, nt, nb, lv, rv⟩ := s
  cases hcl with
  | false => exact ⟨rfl, rfl, rfl, rfl, rfl, rfl, rfl⟩
  | true =>
    cases cap with
    | none => exact ⟨rfl, rfl, rfl, rfl, rfl, rfl, rfl⟩
    | some c =>
      by_cases hb : isBlobURL c
      · simp [runCleanup, hb]
      · simp [runCleanup, hb]

theorem runEffect_fields (s : HookState) :
    (runEffect s).source = s.source ∧
    (runEffect s).input = s.input ∧
    (runEffect s).live = s.live ∧
    (runEffect s).revoked = s.revoked ∧
    (runEffect s).nextBlobId = s.nextBlobId := by
  unfold runEffect
  cases h : s.input with
  | none => exact ⟨rfl, h, rfl, rfl, rfl⟩
  | some u => exact ⟨rfl, rfl, rfl, rfl, rfl⟩

theorem resolveFetch_pres (s : HookState) (t : Nat) (r : Option Blob) :
    (resolveFetch s t r).activeToken = s.activeToken ∧
    (resolveFetch s t r).hasCleanup = s.hasCleanup := by
  unfold resolveFetch
  cases hf : s.pending.find? (fun p => p.1 == t) with
  | none => exact ⟨rfl, rfl⟩
  | some pr =>
    dsimp only
    split
    · cases r <;> exact ⟨rfl, rfl⟩
    · exact ⟨rfl, rfl⟩

theorem resolveFetch_stale (s : HookState) (t : Nat) (r : Option Blob)
    (h : ¬ (s.hasCleanup = true ∧ s.activeToken = t)) :
    (resolveFetch s t r).source = s.source ∧
    (resolveFetch s t r).live = s.live ∧
    (resolveFetch s t r).revoked = s.revoked := by
  unfold resolveFetch
  cases hf : s.pending.find? (fun p => p.1 == t) with
  | none => exact ⟨rfl, rfl, rfl⟩
  | some pr =>
    dsimp only
    rw [if_neg h]
    exact ⟨rfl, rfl, rfl⟩

theorem changeInput_fields (s : HookState) (u2 : String)
    (h : some u2 ≠ s.input) :
    (changeInput s (some u2)).activeToken = s.nextToken ∧
    (changeInput s (some u2)).hasCleanup = true := by
  unfold changeInput
  rw [if_neg h]
  have hin : (runCleanup { s with input := some u2 }).input = some u2 :=
    (runCleanup_fields _).2.1
  have hnt : (runCleanup { s with input := some u2 }).nextToken = s.nextToken :=
    (runCleanup_fields _).2.2.2.2.1
  unfold runEffect
  rw [hin]
  exact ⟨hnt, rfl⟩

/-- C3 fails on the code: the cleanup closure captured `source` as of the
render in which its effect ran — before the lookup completed — so it never
revokes the object url that lookup created.  After mount with url `a`, a
successful cached resolution and teardown, one object url is still live
(the claim demands zero); after one further input change to `b` and a
second cached resolution, two object urls are live at once (the claim
demands at most one). -/
theorem useOfflineImage_leaks :
    (teardown (resolveFetch (initHook (some "a")) 0 (some [7]))).live
      = [objectURL 0] ∧
    (resolveFetch (changeInput (resolveFetch (initHook (some "a")) 0 (some [7]))
        (some "b")) 1 (some [8])).live
      = [objectURL 0, objectURL 1] := by
  constructor
  · rfl
  · rfl

/-- C6: when the Blob Store has no entry for `u`, the hook's resolution of
`u` yields `u` itself unchanged (network fallback); the absence is the
ordinary `else` branch, not an error. -/
theorem hook_network_fallback (store : Store) (u : String)
    (h : getImage store u = none) :
    (resolveFetch (initHook (some u)) 0 (getImage store u)).source = some u := by
  rw [h]
  rfl

/-- Witness for C6 at a concrete input: empty store, url `a`. -/
theorem hook_network_fallback_witness :
    (resolveFetch (initHook (some "a")) 0 (getImage [] "a")).source = some "a" :=
  hook_network_fallback [] "a" rfl

/-- C7 as stated fails on the code: `fetchImage` has no catch around
`await getImage(imageUrl)`, so a rejected lookup performs no state update
at all.  After mounting with url `a`, resolving, changing the input to `b`
and having the lookup for `b` reject, the output is still `a` — not the
claimed original url `b` of the failed resolution. -/
theorem hook_lookup_failure_not_new_url :
    (rejectFetch (changeInput (resolveFetch (initHook (some "a")) 0 none)
        (some "b")) 1).source ≠ some "b" := by
  decide

/-- C7 amended: a failed store lookup triggers no state update, so on
initial mount the output remains the input url `u` (its `useState`
initial value, which is the original url), while after an input change
the output retains its previous value; in neither case is an error
surfaced. -/
theorem hook_lookup_failure_keeps_source (u : String) (s : HookState)
    (t t2 : Nat) :
    (rejectFetch (initHook (some u)) t).source = some u ∧
    (rejectFetch s t2).source = s.source :=
  ⟨rfl, rfl⟩

/-- C8 as stated fails on the code: `useState<string | null>(imageUrl)`
initialises the output to the input url, so while the very first
resolution is still pending the output is the url, not null; and an input
change to null returns from the effect early, leaving the output at its
previous value rather than resetting it to null. -/
theorem hook_output_pending_not_none :
    ((initHook (some "a")).source ≠ none ∧ (initHook (some "a")).pending ≠ []) ∧
    (changeInput (resolveFetch (initHook (some "a")) 0 none) none).source ≠ none := by
  decide

/-- C8 amended: the output starts as the input itself — the url when one
is supplied (even while the first resolution is pending), null when the
input is null — and an input change to null leaves the output unchanged
instead of resetting it to null. -/
theorem hook_output_initial_and_none (u : String) (s : HookState) :
    (initHook (some u)).source = some u ∧
    (initHook none).source = none ∧
    (changeInput s none).source = s.source := by
  refine ⟨rfl, rfl, ?_⟩
  unfold changeInput
  by_cases h : (none : Option String) = s.input
  · rw [if_pos h]
  · rw [if_neg h]
    rw [(runEffect_fields (runCleanup { s with input := none })).1]
    exact (runCleanup_fields { s with input := none }).1

/-- C9: within one hook instance, when the input changes from `u1` to `u2`
while a lookup for `u1` (token `t`) is still in flight, the late result for
`u1` is discarded by the `isMounted` guard: it changes neither the output
nor the live or revoked object urls, whether it lands before or after the
resolution for `u2` completes. -/
theorem stale_resolution_discarded (s : HookState) (u2 url : String)
    (t : Nat) (r1 r2 : Option Blob)
    (hwf : ∀ p ∈ s.pending, p.1 < s.nextToken)
    (hchange : some u2 ≠ s.input)
    (hpend : (t, url) ∈ s.pending) :
    ((resolveFetch (changeInput s (some u2)) t r1).source
        = (changeInput s (some u2)).source ∧
      (resolveFetch (changeInput s (some u2)) t r1).live
        = (changeInput s (some u2)).live ∧
      (resolveFetch (changeInput s (some u2)) t r1).revoked
        = (changeInput s (some u2)).revoked) ∧
    ((resolveFetch (resolveFetch (changeInput s (some u2))
          (changeInput s (some u2)).activeToken r2) t r1).source
        = (resolveFetch (changeInput s (some u2))
          (changeInput s (some u2)).activeToken r2).source ∧
      (resolveFetch (resolveFetch (changeInput s (some u2))
          (changeInput s (some u2)).activeToken r2) t r1).live
        = (resolveFetch (changeInput s (some u2))
          (changeInput s (some u2)).activeToken r2).live ∧
      (resolveFetch (resolveFetch (changeInput s (some u2))
          (changeInput s (some u2)).activeToken r2) t r1).revoked
        = (resolveFetch (changeInput s (some u2))
          (changeInput s (some u2)).activeToken r2).revoked) := by
  have ht : t < s.nextToken := hwf (t, url) hpend
  have hfields := changeInput_fields s u2 hchange
  have hne : ¬ ((changeInput s (some u2)).hasCleanup = true ∧
      (changeInput s (some u2)).activeToken = t) := by
    rintro ⟨_, h2⟩
    rw [hfields.1] at h2
    omega
  constructor
  · exact resolveFetch_stale (changeInput s (some u2)) t r1 hne
  · have hpres := resolveFetch_pres (changeInput s (some u2))
      (changeInput s (some u2)).activeToken r2
    have hne2 : ¬ ((resolveFetch (changeInput s (some u2))
        (changeInput s (some u2)).activeToken r2).hasCleanup = true ∧
        (resolveFetch (changeInput s (some u2))
          (changeInput s (some u2)).activeToken r2).activeToken = t) := by
      rw [hpres.1, hpres.2]
      exact hne
    exact resolveFetch_stale _ t r1 hne2

/-- Witness for C9 at a concrete input: mount with url `a` (lookup token 0
in flight), change the input to `b`, let the `b` resolution complete, then
let the stale `a` resolution land. -/
theorem stale_resolution_discarded_witness :
    (resolveFetch (resolveFetch (changeInput (initHook (some "a")) (some "b"))
        (changeInput (initHook (some "a")) (some "b")).activeToken (some [2]))
        0 (some [1])).source
      = (resolveFetch (changeInput (initHook (some "a")) (some "b"))
        (changeInput (initHook (some "a")) (some "b")).activeToken (some [2])).source :=
  ((stale_resolution_discarded (initHook (some "a")) "b" "a" 0 (some [1]) (some [2])
      (by decide) (by decide) (by decide)).2).1
